import Mathlib

/-!
Shallow embedding of the book/reading-diary manager (src/models.py and
src/book_manager.py).

Python dictionaries are insertion-ordered, so both `books` and `diaries`
are modelled as association lists: assignment to an existing key updates
the value in place (keeping the key's position), assignment to a fresh key
appends at the end, and `del` removes the entry.  Python `datetime` values
carry year/month/day plus a time-of-day component; both are modelled
explicitly because `strftime("%Y-%m-%d")` discards the time component.
-/

namespace BookApp

/-- Model of Python `datetime` (microseconds are irrelevant below second
granularity for every claim, so seconds are the finest field kept). -/
structure DateTime where
  year : Nat
  month : Nat
  day : Nat
  hour : Nat
  minute : Nat
  second : Nat
deriving DecidableEq

/-- Python `datetime` comparison: lexicographic on the fields. -/
def DateTime.lt (a b : DateTime) : Bool :=
  if a.year ≠ b.year then decide (a.year < b.year)
  else if a.month ≠ b.month then decide (a.month < b.month)
  else if a.day ≠ b.day then decide (a.day < b.day)
  else if a.hour ≠ b.hour then decide (a.hour < b.hour)
  else if a.minute ≠ b.minute then decide (a.minute < b.minute)
  else decide (a.second < b.second)

/-- Class invariant of Python `datetime`: `MINYEAR = 1`, `MAXYEAR = 9999`,
months `1..12`, day valid for the month (checked by the constructor). -/
def isLeapYear (y : Nat) : Bool := decide ((y % 4 = 0 ∧ y % 100 ≠ 0) ∨ y % 400 = 0)

def daysInMonth (y m : Nat) : Nat :=
  if m = 2 then (if isLeapYear y then 29 else 28)
  else if m = 4 ∨ m = 6 ∨ m = 9 ∨ m = 11 then 30
  else 31

def DateTime.ValidDate (t : DateTime) : Prop :=
  1 ≤ t.year ∧ t.year ≤ 9999 ∧ 1 ≤ t.month ∧ t.month ≤ 12 ∧
    1 ≤ t.day ∧ t.day ≤ daysInMonth t.year t.month

instance (t : DateTime) : Decidable t.ValidDate := by
  unfold DateTime.ValidDate; infer_instance

/-- No time-of-day component (what `strptime` produces, and what the spec's
"day granularity" means). -/
def DateTime.Midnight (t : DateTime) : Prop := t.hour = 0 ∧ t.minute = 0 ∧ t.second = 0

instance (t : DateTime) : Decidable t.Midnight := by
  unfold DateTime.Midnight; infer_instance

/-! ### Date formatting and parsing (`strftime` / `strptime` with `"%Y-%m-%d"`) -/

/-- ASCII digit for `n < 10`. -/
def digitChar (n : Nat) : Char := Char.ofNat (48 + n)

/-- Inverse of `digitChar`: `none` on a non-digit character. -/
def charToDigit (c : Char) : Option Nat :=
  if 48 ≤ c.toNat ∧ c.toNat ≤ 57 then some (c.toNat - 48) else none

/-- Zero-padded 4-digit rendering (`%Y` for years up to 9999). -/
def pad4 (n : Nat) : List Char :=
  [digitChar (n / 1000 % 10), digitChar (n / 100 % 10),
   digitChar (n / 10 % 10), digitChar (n % 10)]

/-- Zero-padded 2-digit rendering (`%m`, `%d`). -/
def pad2 (n : Nat) : List Char :=
  [digitChar (n / 10 % 10), digitChar (n % 10)]

/-- `date.strftime("%Y-%m-%d")`. -/
def strftimeDate (t : DateTime) : String :=
  ⟨pad4 t.year ++ '-' :: (pad2 t.month ++ '-' :: pad2 t.day)⟩

def parse2 (a b : Char) : Option Nat :=
  match charToDigit a, charToDigit b with
  | some x, some y => some (10 * x + y)
  | _, _ => none

def parse4 (a b c d : Char) : Option Nat :=
  match charToDigit a, charToDigit b, charToDigit c, charToDigit d with
  | some w, some x, some y, some z => some (1000 * w + 100 * x + 10 * y + z)
  | _, _, _, _ => none

def parseDateChars : List Char → Option (Nat × Nat × Nat)
  | [y1, y2, y3, y4, s1, m1, m2, s2, d1, d2] =>
    if s1 = '-' ∧ s2 = '-' then
      match parse4 y1 y2 y3 y4, parse2 m1 m2, parse2 d1 d2 with
      | some y, some m, some d => some (y, m, d)
      | _, _, _ => none
    else none
  | _ => none

/-- `datetime.strptime(s, "%Y-%m-%d")`: field-directed parse of the
zero-padded `YYYY-MM-DD` shape (the shape this program's serializer emits),
then the `datetime` constructor's range validation; `none` models the raised
`ValueError`. -/
def strptimeDate (s : String) : Option DateTime :=
  match parseDateChars s.data with
  | none => none
  | some (y, m, d) =>
    if 1 ≤ y ∧ y ≤ 9999 ∧ 1 ≤ m ∧ m ≤ 12 ∧ 1 ≤ d ∧ d ≤ daysInMonth y m then
      some ⟨y, m, d, 0, 0, 0⟩
    else none

/-! ### Entities (src/models.py) -/

structure Book where
  id : String
  title : String
  author : String
  published_year : Int
  genre : String
  memo : String
deriving DecidableEq

structure Diary where
  id : String
  book_id : String
  date : DateTime
  content : String
deriving DecidableEq

/-- The dictionary produced by `Book.to_dict`. -/
structure BookRecord where
  id : String
  title : String
  author : String
  published_year : Int
  genre : String
  memo : String
deriving DecidableEq

/-- The dictionary produced by `Diary.to_dict`; the date is the serialized
string. -/
structure DiaryRecord where
  id : String
  book_id : String
  date : String
  content : String
deriving DecidableEq

def Book.to_dict (b : Book) : BookRecord :=
  ⟨b.id, b.title, b.author, b.published_year, b.genre, b.memo⟩

/-- `Book.from_dict`: rebuilds the book, taking the id from the record. -/
def Book.from_dict (r : BookRecord) : Book :=
  ⟨r.id, r.title, r.author, r.published_year, r.genre, r.memo⟩

def Diary.to_dict (d : Diary) : DiaryRecord :=
  ⟨d.id, d.book_id, strftimeDate d.date, d.content⟩

/-- `Diary.from_dict`: parses the date first (`strptime` raises on a bad
string, modelled by `none`), then rebuilds the diary. -/
def Diary.from_dict (r : DiaryRecord) : Option Diary :=
  match strptimeDate r.date with
  | none => none
  | some t => some ⟨r.id, r.book_id, t, r.content⟩

/-! ### Association-list model of the Python dictionaries -/

/-- First value bound to key `k` (`dict.get` / `dict[k]`). -/
def listLookup (k : String) : List (String × α) → Option α
  | [] => none
  | (k', v) :: rest => if k' = k then some v else listLookup k rest

/-- `dict[k] = v`: replaces the value in place if the key is present
(keeping its position), otherwise appends the binding at the end. -/
def listUpdate (k : String) (v : α) : List (String × α) → List (String × α)
  | [] => [(k, v)]
  | (k', v') :: rest =>
    if k' = k then (k, v) :: rest else (k', v') :: listUpdate k v rest

/-- `del dict[k]`: removes the (unique) binding of `k`. -/
def listErase (k : String) : List (String × α) → List (String × α)
  | [] => []
  | (k', v') :: rest => if k' = k then rest else (k', v') :: listErase k rest

/-- `k in dict`. -/
def hasKey (k : String) (l : List (String × α)) : Bool :=
  (listLookup k l).isSome

/-! ### Sorting used by `get_diaries_for_book`

`sorted(lst, key=lambda d: d.date, reverse=True)` is a stable sort
putting larger dates first; modelled as a stable insertion sort processing
the stored list left to right, each element going after every
already-placed element whose date is not strictly smaller. -/

def insertByDateDesc (d : Diary) : List Diary → List Diary
  | [] => [d]
  | e :: es =>
    if DateTime.lt e.date d.date then d :: e :: es else e :: insertByDateDesc d es

def sortByDateDesc (l : List Diary) : List Diary :=
  l.foldl (fun acc d => insertByDateDesc d acc) []

/-! ### Substring search (`needle in hay` on lowercased strings) -/

def startsWithCL : List Char → List Char → Bool
  | _, [] => true
  | [], _ :: _ => false
  | h :: hs, n :: ns => h == n && startsWithCL hs ns

def substrAux : List Char → List Char → Bool
  | [], n => startsWithCL [] n
  | h :: hs, n => startsWithCL (h :: hs) n || substrAux hs n

/-- Python `needle in hay` (substring containment). -/
def containsSub (hay needle : String) : Bool := substrAux hay.data needle.data

/-- Python `str.lower()` (character-wise lowering). -/
def lowerStr (s : String) : String := ⟨s.data.map Char.toLower⟩

/-! ### The repository (src/book_manager.py) -/

/-- In-memory state of `BookManager`: the two insertion-ordered dicts. -/
structure BookManager where
  books : List (String × Book)
  diaries : List (String × List Diary)
deriving DecidableEq

/-- What `save_data` serializes: the whole `{books, diaries}` aggregate. -/
inductive FileContent where
  /-- A file that `json.load` cannot parse, or whose top level (or a book
  record, decoded first) cannot be decoded: in all these cases `load_data`
  catches the exception before `self.books` is reassigned. -/
  | malformed : FileContent
  /-- A parsed JSON document with its two sections. -/
  | parsed : List (String × BookRecord) → List (String × List DiaryRecord) → FileContent
deriving DecidableEq

/-- The manager together with the persisted file (`none` = file absent). -/
structure Sys where
  mgr : BookManager
  file : Option FileContent
deriving DecidableEq

/-- `save_data`: serializes the whole state with `to_dict`. -/
def save_data (m : BookManager) : FileContent :=
  .parsed (m.books.map (fun p => (p.1, p.2.to_dict)))
    (m.diaries.map (fun p => (p.1, p.2.map Diary.to_dict)))

def decodeBooks (l : List (String × BookRecord)) : List (String × Book) :=
  l.map (fun p => (p.1, Book.from_dict p.2))

/-- Effectful map over `Option`: `none` as soon as one element fails
(a comprehension that raises somewhere produces no value at all). -/
def optionMapList (f : α → Option β) : List α → Option (List β)
  | [] => some []
  | a :: as =>
    match f a with
    | none => none
    | some b =>
      match optionMapList f as with
      | none => none
      | some bs => some (b :: bs)

def decodeDiaries (l : List (String × List DiaryRecord)) :
    Option (List (String × List Diary)) :=
  optionMapList (fun p => (optionMapList Diary.from_dict p.2).map (fun ds => (p.1, ds))) l

/-- `load_data`: missing file or a parse failure returns `false` and is
caught.  Mirrors the source's statement order: `self.books` is assigned
first, so a failure while decoding the diaries section leaves the new
books in place while `self.diaries` keeps its old value. -/
def load_data (s : Sys) : Sys × Bool :=
  match s.file with
  | none => (s, false)
  | some .malformed => (s, false)
  | some (.parsed bks dis) =>
    let newBooks := decodeBooks bks
    match decodeDiaries dis with
    | some newDiaries => ({ s with mgr := ⟨newBooks, newDiaries⟩ }, true)
    | none => ({ s with mgr := ⟨newBooks, s.mgr.diaries⟩ }, false)

/-- `BookManager.__init__`: start from empty dicts, then `load_data`. -/
def freshLoad (f : Option FileContent) : Sys :=
  (load_data ⟨⟨[], []⟩, f⟩).1

/-- `add_book`: unconditional insert, ensure a diary list exists, save. -/
def add_book (s : Sys) (b : Book) : Sys × String :=
  let books := listUpdate b.id b s.mgr.books
  let diaries :=
    if hasKey b.id s.mgr.diaries then s.mgr.diaries
    else listUpdate b.id [] s.mgr.diaries
  let mgr : BookManager := ⟨books, diaries⟩
  (⟨mgr, some (save_data mgr)⟩, b.id)

/-- `delete_book`: `false` if absent; otherwise delete the book, delete its
diary list if present, save, return `true`. -/
def delete_book (s : Sys) (book_id : String) : Sys × Bool :=
  if hasKey book_id s.mgr.books then
    let books := listErase book_id s.mgr.books
    let diaries :=
      if hasKey book_id s.mgr.diaries then listErase book_id s.mgr.diaries
      else s.mgr.diaries
    let mgr : BookManager := ⟨books, diaries⟩
    (⟨mgr, some (save_data mgr)⟩, true)
  else (s, false)

def get_book (m : BookManager) (book_id : String) : Option Book :=
  listLookup book_id m.books

/-- `get_all_books`: the dict's values in insertion order. -/
def get_all_books (m : BookManager) : List Book :=
  m.books.map Prod.snd

/-- `search_books`: case-insensitive substring match on title, author,
genre or memo, keeping iteration order. -/
def search_books (m : BookManager) (query : String) : List Book :=
  let q := lowerStr query
  (m.books.map Prod.snd).filter (fun b =>
    containsSub (lowerStr b.title) q || containsSub (lowerStr b.author) q ||
      containsSub (lowerStr b.genre) q || containsSub (lowerStr b.memo) q)

/-- `add_diary`: raises (modelled by `Except.error`) when the book id is
unknown — before any mutation; otherwise ensures the key, appends, saves,
returns the diary id. -/
def add_diary (s : Sys) (d : Diary) : Sys × Except String String :=
  if hasKey d.book_id s.mgr.books then
    let ds0 :=
      if hasKey d.book_id s.mgr.diaries then s.mgr.diaries
      else listUpdate d.book_id [] s.mgr.diaries
    let cur := (listLookup d.book_id ds0).getD []
    let mgr : BookManager := ⟨s.mgr.books, listUpdate d.book_id (cur ++ [d]) ds0⟩
    (⟨mgr, some (save_data mgr)⟩, .ok d.id)
  else
    (s, .error ("Book with ID " ++ d.book_id ++ " does not exist"))

/-- Replace the first element whose id matches `d.id` by `d` (in place);
`none` when no element matches. -/
def replaceById (d : Diary) : List Diary → Option (List Diary)
  | [] => none
  | e :: es =>
    if e.id = d.id then some (d :: es)
    else (replaceById d es).map (fun l => e :: l)

/-- `update_diary`: `false` when the book key or the diary id is missing;
otherwise replace in place, save, `true`. -/
def update_diary (s : Sys) (d : Diary) : Sys × Bool :=
  match listLookup d.book_id s.mgr.diaries with
  | none => (s, false)
  | some l =>
    match replaceById d l with
    | none => (s, false)
    | some l' =>
      let mgr : BookManager := ⟨s.mgr.books, listUpdate d.book_id l' s.mgr.diaries⟩
      (⟨mgr, some (save_data mgr)⟩, true)

/-- Remove the first element with the given id; `none` when absent. -/
def removeById (did : String) : List Diary → Option (List Diary)
  | [] => none
  | e :: es =>
    if e.id = did then some es
    else (removeById did es).map (fun l => e :: l)

/-- Scan the diary dict in order; delete from the first list containing the
id. -/
def deleteDiaryIn (did : String) : List (String × List Diary) →
    Option (List (String × List Diary))
  | [] => none
  | (k, l) :: rest =>
    match removeById did l with
    | some l' => some ((k, l') :: rest)
    | none => (deleteDiaryIn did rest).map (fun r => (k, l) :: r)

/-- `delete_diary`: global scan; remove the first match and save. -/
def delete_diary (s : Sys) (diary_id : String) : Sys × Bool :=
  match deleteDiaryIn diary_id s.mgr.diaries with
  | none => (s, false)
  | some dis =>
    let mgr : BookManager := ⟨s.mgr.books, dis⟩
    (⟨mgr, some (save_data mgr)⟩, true)

/-- `get_diaries_for_book`: empty when the key is unknown, otherwise the
stored list sorted by date descending (stable). -/
def get_diaries_for_book (m : BookManager) (book_id : String) : List Diary :=
  match listLookup book_id m.diaries with
  | none => []
  | some l => sortByDateDesc l

/-! ### Lemmas about the dictionary model -/

theorem listLookup_update_self (k : String) (v : α) (l : List (String × α)) :
    listLookup k (listUpdate k v l) = some v := by
  induction l with
  | nil => simp [listUpdate, listLookup]
  | cons p rest ih =>
    by_cases h : p.1 = k
    · simp [listUpdate, listLookup, h]
    · simp [listUpdate, listLookup, h, ih]

theorem listLookup_update_ne (k k' : String) (v : α) (l : List (String × α))
    (h : k' ≠ k) : listLookup k' (listUpdate k v l) = listLookup k' l := by
  have h' : k ≠ k' := Ne.symm h
  induction l with
  | nil => simp [listUpdate, listLookup, h']
  | cons p rest ih =>
    by_cases hp : p.1 = k
    · simp [listUpdate, listLookup, hp, h']
    · by_cases hp' : p.1 = k' <;> simp [listUpdate, listLookup, hp, hp', h, h', ih]

theorem listLookup_erase_ne (k k' : String) (l : List (String × α))
    (h : k' ≠ k) : listLookup k' (listErase k l) = listLookup k' l := by
  have h' : k ≠ k' := Ne.symm h
  induction l with
  | nil => simp [listErase]
  | cons p rest ih =>
    by_cases hp : p.1 = k
    · have hpk : ¬p.1 = k' := by rw [hp]; exact h'
      simp [listErase, listLookup, hp, hpk, h']
    · by_cases hp' : p.1 = k' <;> simp [listErase, listLookup, hp, hp', h, h', ih]

theorem listLookup_not_mem_keys (k : String) (l : List (String × α))
    (h : k ∉ l.map Prod.fst) : listLookup k l = none := by
  induction l with
  | nil => rfl
  | cons p rest ih =>
    simp only [List.map_cons, List.mem_cons, not_or] at h
    rw [listLookup, if_neg (fun e => h.1 e.symm)]
    exact ih h.2

theorem listLookup_erase_self (k : String) (l : List (String × α))
    (h : (l.map Prod.fst).Nodup) : listLookup k (listErase k l) = none := by
  induction l with
  | nil => rfl
  | cons p rest ih =>
    simp only [List.map_cons, List.nodup_cons] at h
    by_cases hp : p.1 = k
    · rw [listErase, if_pos hp]
      apply listLookup_not_mem_keys
      rw [← hp]
      exact h.1
    · rw [listErase, if_neg hp, listLookup, if_neg hp]
      exact ih h.2

theorem listLookup_isSome_of_mem {l : List (String × α)} {p : String × α}
    (h : p ∈ l) : (listLookup p.1 l).isSome = true := by
  induction l with
  | nil => cases h
  | cons q rest ih =>
    rcases List.mem_cons.mp h with h | h
    · simp [listLookup, h]
    · by_cases hq : q.1 = p.1 <;> simp [listLookup, hq, ih h]

theorem keys_update (k : String) (v : α) (l : List (String × α)) :
    (listUpdate k v l).map Prod.fst =
      if (listLookup k l).isSome then l.map Prod.fst else l.map Prod.fst ++ [k] := by
  induction l with
  | nil => simp [listUpdate, listLookup]
  | cons p rest ih =>
    by_cases hp : p.1 = k
    · simp [listUpdate, listLookup, hp]
    · simp only [listUpdate, listLookup, hp, if_false, List.map_cons, ih]
      by_cases hs : (listLookup k rest).isSome <;> simp [hs]

theorem keys_update_nodup (k : String) (v : α) (l : List (String × α))
    (h : (l.map Prod.fst).Nodup) : ((listUpdate k v l).map Prod.fst).Nodup := by
  rw [keys_update]
  by_cases hs : (listLookup k l).isSome
  · simpa [hs] using h
  · have hk : k ∉ l.map Prod.fst := by
      intro hm
      rcases List.mem_map.mp hm with ⟨p, hp, he⟩
      have := listLookup_isSome_of_mem hp
      rw [he] at this
      exact hs this
    simp only [hs, if_false]
    exact List.Nodup.append h (List.nodup_singleton k) (by simpa using hk)

theorem keys_erase_sublist (k : String) (l : List (String × α)) :
    ((listErase k l).map Prod.fst).Sublist (l.map Prod.fst) := by
  induction l with
  | nil => simp [listErase]
  | cons p rest ih =>
    by_cases hp : p.1 = k
    · simp only [listErase, hp, if_true, List.map_cons]
      exact (List.Sublist.refl _).cons _
    · simp only [listErase, hp, if_false, List.map_cons]
      exact ih.cons₂ p.1

theorem keys_erase_nodup (k : String) (l : List (String × α))
    (h : (l.map Prod.fst).Nodup) : ((listErase k l).map Prod.fst).Nodup :=
  (keys_erase_sublist k l).nodup h

theorem hasKey_erase_of_ne (k k' : String) (l : List (String × α))
    (h : k' ≠ k) : hasKey k' (listErase k l) = hasKey k' l := by
  simp [hasKey, listLookup_erase_ne k k' l h]

/-! ### Lemmas about the datetime order -/

theorem dateLt_irrefl (a : DateTime) : DateTime.lt a a = false := by
  simp [DateTime.lt]

theorem dateLt_iff (a b : DateTime) : DateTime.lt a b = true ↔
    (a.year < b.year ∨ (a.year = b.year ∧ (a.month < b.month ∨ (a.month = b.month ∧
      (a.day < b.day ∨ (a.day = b.day ∧ (a.hour < b.hour ∨ (a.hour = b.hour ∧
        (a.minute < b.minute ∨ (a.minute = b.minute ∧ a.second < b.second)))))))))) := by
  unfold DateTime.lt
  split_ifs <;> simp <;> omega

theorem dateLt_asymm (a b : DateTime) (h : DateTime.lt a b = true) :
    DateTime.lt b a = false := by
  rw [dateLt_iff] at h
  simp only [Bool.eq_false_iff, ne_eq, dateLt_iff]
  omega

theorem dateLt_ge_trans (a b c : DateTime) (h1 : DateTime.lt a b = false)
    (h2 : DateTime.lt b c = false) : DateTime.lt a c = false := by
  simp only [Bool.eq_false_iff, ne_eq, dateLt_iff] at h1 h2 ⊢
  omega

/-! ### Correctness of the stable descending sort -/

/-- "Date descending" between adjacent output positions. -/
def dateDesc (a b : Diary) : Prop := DateTime.lt a.date b.date = false

theorem mem_insertByDateDesc (d x : Diary) (l : List Diary) :
    x ∈ insertByDateDesc d l ↔ x = d ∨ x ∈ l := by
  induction l with
  | nil => simp [insertByDateDesc]
  | cons e es ih =>
    rw [insertByDateDesc]
    cases hlt : DateTime.lt e.date d.date
    · simp only [Bool.false_eq_true, if_false, List.mem_cons, ih]
      tauto
    · simp only [if_true, List.mem_cons]

theorem insertByDateDesc_perm (d : Diary) (l : List Diary) :
    (insertByDateDesc d l).Perm (d :: l) := by
  induction l with
  | nil => simp [insertByDateDesc]
  | cons e es ih =>
    rw [insertByDateDesc]
    cases hlt : DateTime.lt e.date d.date
    · simp only [Bool.false_eq_true, if_false]
      exact (ih.cons e).trans (List.Perm.swap d e es)
    · simp

theorem insertByDateDesc_pairwise (d : Diary) (l : List Diary)
    (h : l.Pairwise dateDesc) : (insertByDateDesc d l).Pairwise dateDesc := by
  induction l with
  | nil => simp [insertByDateDesc]
  | cons e es ih =>
    rw [List.pairwise_cons] at h
    rw [insertByDateDesc]
    cases hlt : DateTime.lt e.date d.date
    · simp only [Bool.false_eq_true, if_false]
      refine List.pairwise_cons.mpr ⟨?_, ih h.2⟩
      intro x hx
      rcases (mem_insertByDateDesc d x es).mp hx with rfl | hx
      · exact hlt
      · exact h.1 x hx
    · simp only [if_true]
      refine List.pairwise_cons.mpr ⟨?_, List.pairwise_cons.mpr h⟩
      intro x hx
      rcases List.mem_cons.mp hx with rfl | hx
      · exact dateLt_asymm _ _ hlt
      · exact dateLt_ge_trans _ _ _ (dateLt_asymm _ _ hlt) (h.1 x hx)

theorem insertByDateDesc_filter_ne (d : Diary) (l : List Diary) (dt : DateTime)
    (hd : d.date ≠ dt) :
    (insertByDateDesc d l).filter (fun x => decide (x.date = dt)) =
      l.filter (fun x => decide (x.date = dt)) := by
  induction l with
  | nil => simp [insertByDateDesc, hd]
  | cons e es ih =>
    rw [insertByDateDesc]
    cases hlt : DateTime.lt e.date d.date
    · simp only [Bool.false_eq_true, if_false, List.filter_cons, ih]
    · simp [List.filter_cons, hd]

theorem insertByDateDesc_filter_eq (d : Diary) (l : List Diary) (dt : DateTime)
    (hd : d.date = dt) (h : l.Pairwise dateDesc) :
    (insertByDateDesc d l).filter (fun x => decide (x.date = dt)) =
      l.filter (fun x => decide (x.date = dt)) ++ [d] := by
  induction l with
  | nil => simp [insertByDateDesc, hd]
  | cons e es ih =>
    rw [List.pairwise_cons] at h
    rw [insertByDateDesc]
    cases hlt : DateTime.lt e.date d.date
    · simp only [Bool.false_eq_true, if_false, List.filter_cons]
      rw [ih h.2]
      by_cases he : e.date = dt <;> simp [he]
    · have hee : e.date ≠ dt := by
        intro he
        have hed : e.date = d.date := he.trans hd.symm
        rw [hed, dateLt_irrefl] at hlt
        simp at hlt
      have hfes : es.filter (fun x => decide (x.date = dt)) = [] := by
        rw [List.filter_eq_nil_iff]
        intro x hx
        have hex := h.1 x hx
        simp only [decide_eq_true_eq]
        intro he
        have hxd : x.date = d.date := he.trans hd.symm
        simp only [dateDesc] at hex
        rw [hxd, hlt] at hex
        simp at hex
      simp [List.filter_cons, hd, hee, hfes]

theorem sortAux_pairwise (l acc : List Diary) (h : acc.Pairwise dateDesc) :
    (l.foldl (fun acc d => insertByDateDesc d acc) acc).Pairwise dateDesc := by
  induction l generalizing acc with
  | nil => simpa using h
  | cons d ds ih =>
    simp only [List.foldl_cons]
    exact ih _ (insertByDateDesc_pairwise d acc h)

theorem sortAux_perm (l acc : List Diary) :
    (l.foldl (fun acc d => insertByDateDesc d acc) acc).Perm (acc ++ l) := by
  induction l generalizing acc with
  | nil => simp
  | cons d ds ih =>
    simp only [List.foldl_cons]
    refine (ih (insertByDateDesc d acc)).trans ?_
    refine (List.Perm.append_right ds (insertByDateDesc_perm d acc)).trans ?_
    exact List.perm_middle.symm

theorem sortAux_filter (l acc : List Diary) (dt : DateTime)
    (h : acc.Pairwise dateDesc) :
    (l.foldl (fun acc d => insertByDateDesc d acc) acc).filter
        (fun x => decide (x.date = dt)) =
      acc.filter (fun x => decide (x.date = dt)) ++
        l.filter (fun x => decide (x.date = dt)) := by
  induction l generalizing acc with
  | nil => simp
  | cons d ds ih =>
    simp only [List.foldl_cons]
    rw [ih _ (insertByDateDesc_pairwise d acc h)]
    by_cases hd : d.date = dt
    · rw [insertByDateDesc_filter_eq d acc dt hd h]
      simp [List.filter_cons, hd]
    · rw [insertByDateDesc_filter_ne d acc dt hd]
      simp [List.filter_cons, hd]

theorem sortByDateDesc_perm (l : List Diary) : (sortByDateDesc l).Perm l := by
  simpa [sortByDateDesc] using sortAux_perm l []

theorem sortByDateDesc_pairwise (l : List Diary) :
    (sortByDateDesc l).Pairwise dateDesc :=
  sortAux_pairwise l [] (by simp)

theorem sortByDateDesc_filter (l : List Diary) (dt : DateTime) :
    (sortByDateDesc l).filter (fun x => decide (x.date = dt)) =
      l.filter (fun x => decide (x.date = dt)) := by
  simpa [sortByDateDesc] using sortAux_filter l [] dt (by simp)

/-! ### The serialization round trip -/

theorem charToDigit_digitChar : ∀ n, n < 10 → charToDigit (digitChar n) = some n := by
  decide

theorem parse2_pad2 (n : Nat) (h : n < 100) :
    parse2 (digitChar (n / 10 % 10)) (digitChar (n % 10)) = some n := by
  unfold parse2
  rw [charToDigit_digitChar _ (Nat.mod_lt _ (by norm_num)),
    charToDigit_digitChar _ (Nat.mod_lt _ (by norm_num))]
  exact congrArg some (by omega)

theorem parse4_pad4 (n : Nat) (h : n < 10000) :
    parse4 (digitChar (n / 1000 % 10)) (digitChar (n / 100 % 10))
      (digitChar (n / 10 % 10)) (digitChar (n % 10)) = some n := by
  unfold parse4
  rw [charToDigit_digitChar _ (Nat.mod_lt _ (by norm_num)),
    charToDigit_digitChar _ (Nat.mod_lt _ (by norm_num)),
    charToDigit_digitChar _ (Nat.mod_lt _ (by norm_num)),
    charToDigit_digitChar _ (Nat.mod_lt _ (by norm_num))]
  exact congrArg some (by omega)

theorem parseDateChars_format (y m d : Nat) (hy : y < 10000) (hm : m < 100)
    (hd : d < 100) :
    parseDateChars (pad4 y ++ '-' :: (pad2 m ++ '-' :: pad2 d)) = some (y, m, d) := by
  simp only [pad4, pad2, List.cons_append, List.nil_append, parseDateChars,
    parse4_pad4 y hy, parse2_pad2 m hm, parse2_pad2 d hd, and_self, if_true]

theorem daysInMonth_le (y m : Nat) : daysInMonth y m ≤ 31 := by
  unfold daysInMonth
  split_ifs <;> norm_num

theorem strptime_strftime (t : DateTime) (hv : t.ValidDate) (hm : t.Midnight) :
    strptimeDate (strftimeDate t) = some t := by
  obtain ⟨h1, h2, h3, h4, h5, h6⟩ := hv
  obtain ⟨e1, e2, e3⟩ := hm
  have hdm := daysInMonth_le t.year t.month
  rw [strftimeDate, strptimeDate]
  show (match parseDateChars (pad4 t.year ++ '-' :: (pad2 t.month ++ '-' :: pad2 t.day))
      with
    | none => none
    | some (y, m, d) =>
      if 1 ≤ y ∧ y ≤ 9999 ∧ 1 ≤ m ∧ m ≤ 12 ∧ 1 ≤ d ∧ d ≤ daysInMonth y m then
        some ⟨y, m, d, 0, 0, 0⟩
      else none) = some t
  rw [parseDateChars_format t.year t.month t.day (by omega) (by omega) (by omega)]
  show (if 1 ≤ t.year ∧ t.year ≤ 9999 ∧ 1 ≤ t.month ∧ t.month ≤ 12 ∧ 1 ≤ t.day ∧
      t.day ≤ daysInMonth t.year t.month then
        some ⟨t.year, t.month, t.day, 0, 0, 0⟩ else none) = some t
  rw [if_pos ⟨h1, h2, h3, h4, h5, h6⟩]
  obtain ⟨y, mo, dy, hh, mi, se⟩ := t
  simp only at e1 e2 e3
  rw [e1, e2, e3]

/-- Every `Book` record survives serialization exactly. -/
theorem book_from_to (b : Book) : Book.from_dict (Book.to_dict b) = b := rfl

/-- Every day-granularity valid `Diary` survives serialization exactly. -/
theorem diary_from_to (d : Diary) (hv : d.date.ValidDate) (hm : d.date.Midnight) :
    Diary.from_dict (Diary.to_dict d) = some d := by
  simp only [Diary.to_dict, Diary.from_dict]
  rw [strptime_strftime d.date hv hm]

/-! ### Membership lemmas for the dictionary model -/

theorem listLookup_mem (k : String) (v : α) (l : List (String × α))
    (h : listLookup k l = some v) : (k, v) ∈ l := by
  induction l with
  | nil => cases h
  | cons p rest ih =>
    rw [listLookup] at h
    by_cases hp : p.1 = k
    · rw [if_pos hp] at h
      injection h with h2
      have he : (k, v) = p := by rw [← hp, ← h2]
      rw [he]
      exact List.mem_cons_self _ _
    · rw [if_neg hp] at h
      exact List.mem_cons_of_mem _ (ih h)

theorem mem_listUpdate (k : String) (v : α) (l : List (String × α)) (p : String × α)
    (h : p ∈ listUpdate k v l) : p = (k, v) ∨ p ∈ l := by
  induction l with
  | nil =>
    rw [listUpdate] at h
    exact Or.inl (List.mem_singleton.mp h)
  | cons q rest ih =>
    rw [listUpdate] at h
    by_cases hq : q.1 = k
    · rw [if_pos hq] at h
      rcases List.mem_cons.mp h with h | h
      · exact Or.inl h
      · exact Or.inr (List.mem_cons_of_mem _ h)
    · rw [if_neg hq] at h
      rcases List.mem_cons.mp h with h | h
      · exact Or.inr (h ▸ List.mem_cons_self _ _)
      · rcases ih h with h | h
        · exact Or.inl h
        · exact Or.inr (List.mem_cons_of_mem _ h)

theorem mem_listErase (k : String) (l : List (String × α)) (p : String × α)
    (h : p ∈ listErase k l) : p ∈ l := by
  induction l with
  | nil =>
    rw [listErase] at h
    exact h
  | cons q rest ih =>
    rw [listErase] at h
    by_cases hq : q.1 = k
    · rw [if_pos hq] at h
      exact List.mem_cons_of_mem _ h
    · rw [if_neg hq] at h
      rcases List.mem_cons.mp h with h | h
      · exact h ▸ List.mem_cons_self _ _
      · exact List.mem_cons_of_mem _ (ih h)

theorem hasKey_iff_mem_keys (k : String) (l : List (String × α)) :
    hasKey k l = true ↔ k ∈ l.map Prod.fst := by
  induction l with
  | nil => simp [hasKey, listLookup]
  | cons p rest ih =>
    by_cases hp : p.1 = k
    · simp [hasKey, listLookup, hp]
    · rw [hasKey, listLookup, if_neg hp]
      simp only [List.map_cons, List.mem_cons]
      rw [show (listLookup k rest).isSome = hasKey k rest from rfl, ih]
      constructor
      · exact fun hm => Or.inr hm
      · rintro (he | hm)
        · exact absurd he.symm hp
        · exact hm

theorem hasKey_update_preserve (k k' : String) (v : α) (l : List (String × α))
    (h : hasKey k l = true) : hasKey k (listUpdate k' v l) = true := by
  by_cases he : k = k'
  · subst he
    simp [hasKey, listLookup_update_self]
  · rw [hasKey, listLookup_update_ne k' k v l he]
    exact h

theorem hasKey_update_self (k : String) (v : α) (l : List (String × α)) :
    hasKey k (listUpdate k v l) = true := by
  simp [hasKey, listLookup_update_self]

theorem keys_update_of_hasKey (k : String) (v : α) (l : List (String × α))
    (h : hasKey k l = true) :
    (listUpdate k v l).map Prod.fst = l.map Prod.fst := by
  rw [keys_update]
  simp [hasKey] at h
  simp [h]

/-! ### Lemmas about diary-list surgery -/

theorem mem_replaceById (d x : Diary) (l l' : List Diary)
    (h : replaceById d l = some l') (hx : x ∈ l') : x = d ∨ x ∈ l := by
  induction l generalizing l' with
  | nil => cases h
  | cons e es ih =>
    rw [replaceById] at h
    by_cases he : e.id = d.id
    · rw [if_pos he] at h
      cases h
      rcases List.mem_cons.mp hx with h | h
      · exact Or.inl h
      · exact Or.inr (List.mem_cons_of_mem _ h)
    · rw [if_neg he] at h
      cases hrec : replaceById d es with
      | none => rw [hrec] at h; cases h
      | some es' =>
        rw [hrec] at h
        cases h
        rcases List.mem_cons.mp hx with h | h
        · exact Or.inr (h ▸ List.mem_cons_self _ _)
        · rcases ih es' hrec h with h | h
          · exact Or.inl h
          · exact Or.inr (List.mem_cons_of_mem _ h)

theorem mem_removeById (did : String) (x : Diary) (l l' : List Diary)
    (h : removeById did l = some l') (hx : x ∈ l') : x ∈ l := by
  induction l generalizing l' with
  | nil => cases h
  | cons e es ih =>
    rw [removeById] at h
    by_cases he : e.id = did
    · rw [if_pos he] at h
      cases h
      exact List.mem_cons_of_mem _ hx
    · rw [if_neg he] at h
      cases hrec : removeById did es with
      | none => rw [hrec] at h; cases h
      | some es' =>
        rw [hrec] at h
        cases h
        rcases List.mem_cons.mp hx with h | h
        · exact h ▸ List.mem_cons_self _ _
        · exact List.mem_cons_of_mem _ (ih es' hrec h)

theorem deleteDiaryIn_keys (did : String) (dis dis' : List (String × List Diary))
    (h : deleteDiaryIn did dis = some dis') :
    dis'.map Prod.fst = dis.map Prod.fst := by
  induction dis generalizing dis' with
  | nil => cases h
  | cons p rest ih =>
    rw [deleteDiaryIn] at h
    cases hr : removeById did p.2 with
    | some l' =>
      rw [hr] at h
      cases h
      simp
    | none =>
      rw [hr] at h
      cases hrec : deleteDiaryIn did rest with
      | none => rw [hrec] at h; cases h
      | some rest' =>
        rw [hrec] at h
        cases h
        simp [ih rest' hrec]

theorem deleteDiaryIn_entries (did : String) (dis dis' : List (String × List Diary))
    (h : deleteDiaryIn did dis = some dis') :
    ∀ p ∈ dis', p ∈ dis ∨ ∃ l, (p.1, l) ∈ dis ∧ removeById did l = some p.2 := by
  induction dis generalizing dis' with
  | nil => cases h
  | cons q rest ih =>
    rw [deleteDiaryIn] at h
    cases hr : removeById did q.2 with
    | some l' =>
      rw [hr] at h
      cases h
      intro p hp
      rcases List.mem_cons.mp hp with hp | hp
      · right
        refine ⟨q.2, ?_, ?_⟩
        · rw [hp]
          exact List.mem_cons_self _ _
        · rw [hp]
          exact hr
      · exact Or.inl (List.mem_cons_of_mem _ hp)
    | none =>
      rw [hr] at h
      cases hrec : deleteDiaryIn did rest with
      | none => rw [hrec] at h; cases h
      | some rest' =>
        rw [hrec] at h
        cases h
        intro p hp
        rcases List.mem_cons.mp hp with hp | hp
        · exact Or.inl (hp ▸ List.mem_cons_self _ _)
        · rcases ih rest' hrec p hp with hh | ⟨l, hl, hrem⟩
          · exact Or.inl (List.mem_cons_of_mem _ hh)
          · exact Or.inr ⟨l, List.mem_cons_of_mem _ hl, hrem⟩

/-! ### Persistence round trip -/

theorem decodeBooks_save (l : List (String × Book)) :
    decodeBooks (l.map (fun p => (p.1, p.2.to_dict))) = l := by
  induction l with
  | nil => rfl
  | cons p rest ih =>
    show ((p.1, Book.from_dict (Book.to_dict p.2)) ::
        decodeBooks (rest.map (fun q => (q.1, q.2.to_dict)))) = p :: rest
    rw [ih]
    rfl

theorem optionMapList_from_to (l : List Diary)
    (h : ∀ d ∈ l, d.date.ValidDate ∧ d.date.Midnight) :
    optionMapList Diary.from_dict (l.map Diary.to_dict) = some l := by
  induction l with
  | nil => rfl
  | cons d ds ih =>
    have hd := h d (List.mem_cons_self _ _)
    have hds := ih (fun x hx => h x (List.mem_cons_of_mem _ hx))
    rw [List.map_cons, optionMapList, diary_from_to d hd.1 hd.2, hds]

theorem decodeDiaries_save (l : List (String × List Diary))
    (h : ∀ p ∈ l, ∀ d ∈ p.2, d.date.ValidDate ∧ d.date.Midnight) :
    decodeDiaries (l.map (fun p => (p.1, p.2.map Diary.to_dict))) = some l := by
  induction l with
  | nil => rfl
  | cons p rest ih =>
    have hp := optionMapList_from_to p.2 (h p (List.mem_cons_self _ _))
    have hrest := ih (fun q hq => h q (List.mem_cons_of_mem _ hq))
    simp only [decodeDiaries] at hrest ⊢
    simp only [List.map_cons, optionMapList, hp, Option.map_some', hrest]

/-- Saving and reloading restores the exact in-memory state, provided every
stored diary date is a valid day-granularity date. -/
theorem freshLoad_save (m : BookManager)
    (h : ∀ p ∈ m.diaries, ∀ d ∈ p.2, d.date.ValidDate ∧ d.date.Midnight) :
    freshLoad (some (save_data m)) = ⟨m, some (save_data m)⟩ := by
  rw [freshLoad, save_data, load_data]
  simp only [decodeBooks_save, decodeDiaries_save m.diaries h]

/-! ### Branch equations for the match-based operations -/

theorem update_diary_none (s : Sys) (d : Diary)
    (hl : listLookup d.book_id s.mgr.diaries = none) :
    update_diary s d = (s, false) := by
  unfold update_diary
  rw [hl]

theorem update_diary_noMatch (s : Sys) (d : Diary) (l : List Diary)
    (hl : listLookup d.book_id s.mgr.diaries = some l)
    (hr : replaceById d l = none) : update_diary s d = (s, false) := by
  unfold update_diary
  rw [hl]
  show (match replaceById d l with
    | none => (s, false)
    | some l' =>
      let mgr : BookManager := ⟨s.mgr.books, listUpdate d.book_id l' s.mgr.diaries⟩
      (⟨mgr, some (save_data mgr)⟩, true)) = (s, false)
  rw [hr]

theorem update_diary_found (s : Sys) (d : Diary) (l l' : List Diary)
    (hl : listLookup d.book_id s.mgr.diaries = some l)
    (hr : replaceById d l = some l') :
    update_diary s d =
      (⟨⟨s.mgr.books, listUpdate d.book_id l' s.mgr.diaries⟩,
        some (save_data ⟨s.mgr.books, listUpdate d.book_id l' s.mgr.diaries⟩)⟩, true) := by
  unfold update_diary
  rw [hl]
  show (match replaceById d l with
    | none => (s, false)
    | some l' =>
      let mgr : BookManager := ⟨s.mgr.books, listUpdate d.book_id l' s.mgr.diaries⟩
      (⟨mgr, some (save_data mgr)⟩, true)) = _
  rw [hr]

theorem delete_diary_none (s : Sys) (i : String)
    (hd : deleteDiaryIn i s.mgr.diaries = none) : delete_diary s i = (s, false) := by
  unfold delete_diary
  rw [hd]

theorem delete_diary_found (s : Sys) (i : String) (dis : List (String × List Diary))
    (hd : deleteDiaryIn i s.mgr.diaries = some dis) :
    delete_diary s i =
      (⟨⟨s.mgr.books, dis⟩, some (save_data ⟨s.mgr.books, dis⟩)⟩, true) := by
  unfold delete_diary
  rw [hd]

theorem add_book_eq_absent (s : Sys) (b : Book)
    (hk : hasKey b.id s.mgr.diaries = false) :
    add_book s b =
      (⟨⟨listUpdate b.id b s.mgr.books, listUpdate b.id [] s.mgr.diaries⟩,
        some (save_data ⟨listUpdate b.id b s.mgr.books,
          listUpdate b.id [] s.mgr.diaries⟩)⟩, b.id) := by
  unfold add_book
  rw [hk]
  rfl

theorem add_book_eq_present (s : Sys) (b : Book)
    (hk : hasKey b.id s.mgr.diaries = true) :
    add_book s b =
      (⟨⟨listUpdate b.id b s.mgr.books, s.mgr.diaries⟩,
        some (save_data ⟨listUpdate b.id b s.mgr.books, s.mgr.diaries⟩)⟩, b.id) := by
  unfold add_book
  rw [hk]
  rfl

theorem add_diary_eq_error (s : Sys) (d : Diary)
    (hb : hasKey d.book_id s.mgr.books = false) :
    add_diary s d =
      (s, Except.error ("Book with ID " ++ d.book_id ++ " does not exist")) := by
  unfold add_diary
  rw [hb]
  rfl

theorem add_diary_eq_present (s : Sys) (d : Diary)
    (hb : hasKey d.book_id s.mgr.books = true)
    (hk : hasKey d.book_id s.mgr.diaries = true) :
    add_diary s d =
      (⟨⟨s.mgr.books,
          listUpdate d.book_id
            ((listLookup d.book_id s.mgr.diaries).getD [] ++ [d]) s.mgr.diaries⟩,
        some (save_data ⟨s.mgr.books,
          listUpdate d.book_id
            ((listLookup d.book_id s.mgr.diaries).getD [] ++ [d]) s.mgr.diaries⟩)⟩,
        Except.ok d.id) := by
  unfold add_diary
  rw [hb, hk]
  rfl

theorem add_diary_eq_absent (s : Sys) (d : Diary)
    (hb : hasKey d.book_id s.mgr.books = true)
    (hk : hasKey d.book_id s.mgr.diaries = false) :
    add_diary s d =
      (⟨⟨s.mgr.books,
          listUpdate d.book_id
            ((listLookup d.book_id (listUpdate d.book_id [] s.mgr.diaries)).getD []
              ++ [d]) (listUpdate d.book_id [] s.mgr.diaries)⟩,
        some (save_data ⟨s.mgr.books,
          listUpdate d.book_id
            ((listLookup d.book_id (listUpdate d.book_id [] s.mgr.diaries)).getD []
              ++ [d]) (listUpdate d.book_id [] s.mgr.diaries)⟩)⟩,
        Except.ok d.id) := by
  unfold add_diary
  rw [hb, hk]
  rfl

theorem delete_book_eq_absent (s : Sys) (bid : String)
    (hb : hasKey bid s.mgr.books = false) : delete_book s bid = (s, false) := by
  unfold delete_book
  rw [hb]
  rfl

theorem delete_book_eq_erase (s : Sys) (bid : String)
    (hb : hasKey bid s.mgr.books = true)
    (hk : hasKey bid s.mgr.diaries = true) :
    delete_book s bid =
      (⟨⟨listErase bid s.mgr.books, listErase bid s.mgr.diaries⟩,
        some (save_data ⟨listErase bid s.mgr.books, listErase bid s.mgr.diaries⟩)⟩,
        true) := by
  unfold delete_book
  rw [hb, hk]
  rfl

theorem delete_book_eq_keep (s : Sys) (bid : String)
    (hb : hasKey bid s.mgr.books = true)
    (hk : hasKey bid s.mgr.diaries = false) :
    delete_book s bid =
      (⟨⟨listErase bid s.mgr.books, s.mgr.diaries⟩,
        some (save_data ⟨listErase bid s.mgr.books, s.mgr.diaries⟩)⟩, true) := by
  unfold delete_book
  rw [hb, hk]
  rfl

theorem get_diaries_for_book_none (m : BookManager) (bid : String)
    (h : listLookup bid m.diaries = none) : get_diaries_for_book m bid = [] := by
  unfold get_diaries_for_book
  rw [h]

theorem get_diaries_for_book_some (m : BookManager) (bid : String) (l : List Diary)
    (h : listLookup bid m.diaries = some l) :
    get_diaries_for_book m bid = sortByDateDesc l := by
  unfold get_diaries_for_book
  rw [h]

/-! ### Referential integrity along reachable states -/

theorem hasKey_of_hasKey_erase (k k' : String) (l : List (String × α))
    (h : hasKey k (listErase k' l) = true) : hasKey k l = true := by
  rw [hasKey_iff_mem_keys] at h ⊢
  exact (keys_erase_sublist k' l).subset h

theorem mem_lookup_getD (dis : List (String × List Diary)) (bid : String)
    (x : Diary) (hx : x ∈ (listLookup bid dis).getD []) :
    ∃ l, listLookup bid dis = some l ∧ x ∈ l := by
  cases hc : listLookup bid dis with
  | none => rw [hc] at hx; cases hx
  | some l => rw [hc] at hx; exact ⟨l, rfl, hx⟩

/-- Invariant carried through the reachability induction: diaries are filed
under their own `book_id`, every book key has a diary list, and — as in any
Python dict — keys are unique. -/
def StrongInv (m : BookManager) : Prop :=
  (∀ p ∈ m.diaries, ∀ d ∈ p.2, d.book_id = p.1) ∧
  (∀ k, hasKey k m.books = true → hasKey k m.diaries = true) ∧
  (m.books.map Prod.fst).Nodup ∧ (m.diaries.map Prod.fst).Nodup

theorem strongInv_add_book (s : Sys) (b : Book) (h : StrongInv s.mgr) :
    StrongInv (add_book s b).1.mgr := by
  obtain ⟨h1, h2, h3, h4⟩ := h
  unfold add_book
  cases hk : hasKey b.id s.mgr.diaries
  · simp only [hk, Bool.false_eq_true, if_false]
    refine ⟨?_, ?_, keys_update_nodup _ _ _ h3, keys_update_nodup _ _ _ h4⟩
    · intro p hp
      rcases mem_listUpdate _ _ _ _ hp with he | hp
      · rw [he]
        intro d hd
        cases hd
      · exact h1 p hp
    · intro k hkk
      by_cases he : k = b.id
      · subst he
        exact hasKey_update_self _ _ _
      · rw [hasKey, listLookup_update_ne _ _ _ _ he] at hkk
        exact hasKey_update_preserve _ _ _ _ (h2 k hkk)
  · simp only [hk, if_true]
    refine ⟨h1, ?_, keys_update_nodup _ _ _ h3, h4⟩
    intro k hkk
    by_cases he : k = b.id
    · subst he
      exact hk
    · rw [hasKey, listLookup_update_ne _ _ _ _ he] at hkk
      exact h2 k hkk

theorem strongInv_add_diary (s : Sys) (d : Diary) (h : StrongInv s.mgr) :
    StrongInv (add_diary s d).1.mgr := by
  obtain ⟨h1, h2, h3, h4⟩ := h
  unfold add_diary
  cases hb : hasKey d.book_id s.mgr.books
  · simp only [hb, Bool.false_eq_true, if_false]
    exact ⟨h1, h2, h3, h4⟩
  · simp only [hb, if_true]
    cases hk : hasKey d.book_id s.mgr.diaries
    · simp only [hk, Bool.false_eq_true, if_false]
      refine ⟨?_, ?_, h3, keys_update_nodup _ _ _ (keys_update_nodup _ _ _ h4)⟩
      · intro p hp
        rcases mem_listUpdate _ _ _ _ hp with he | hp
        · rw [he]
          intro x hx
          rcases List.mem_append.mp hx with hx | hx
          · obtain ⟨l, hl, hxl⟩ := mem_lookup_getD _ _ _ hx
            rcases mem_listUpdate _ _ _ _ (listLookup_mem _ _ _ hl) with he2 | he2
            · injection he2 with he2a he2b
              rw [he2b] at hxl
              cases hxl
            · exact h1 _ he2 x hxl
          · rw [List.mem_singleton.mp hx]
        · rcases mem_listUpdate _ _ _ _ hp with he2 | hp2
          · rw [he2]
            intro x hx
            cases hx
          · exact h1 p hp2
      · intro k hkk
        exact hasKey_update_preserve _ _ _ _ (hasKey_update_preserve _ _ _ _ (h2 k hkk))
    · simp only [hk, if_true]
      refine ⟨?_, ?_, h3, keys_update_nodup _ _ _ h4⟩
      · intro p hp
        rcases mem_listUpdate _ _ _ _ hp with he | hp
        · rw [he]
          intro x hx
          rcases List.mem_append.mp hx with hx | hx
          · obtain ⟨l, hl, hxl⟩ := mem_lookup_getD _ _ _ hx
            exact h1 _ (listLookup_mem _ _ _ hl) x hxl
          · rw [List.mem_singleton.mp hx]
        · exact h1 p hp
      · intro k hkk
        exact hasKey_update_preserve _ _ _ _ (h2 k hkk)

theorem strongInv_update_diary (s : Sys) (d : Diary) (h : StrongInv s.mgr) :
    StrongInv (update_diary s d).1.mgr := by
  obtain ⟨h1, h2, h3, h4⟩ := h
  cases hl : listLookup d.book_id s.mgr.diaries with
  | none =>
    rw [update_diary_none s d hl]
    exact ⟨h1, h2, h3, h4⟩
  | some l =>
    cases hr : replaceById d l with
    | none =>
      rw [update_diary_noMatch s d l hl hr]
      exact ⟨h1, h2, h3, h4⟩
    | some l' =>
      rw [update_diary_found s d l l' hl hr]
      refine ⟨?_, ?_, h3, keys_update_nodup _ _ _ h4⟩
      · intro p hp
        rcases mem_listUpdate _ _ _ _ hp with he | hp
        · rw [he]
          intro x hx
          rcases mem_replaceById d x l l' hr hx with he2 | hx2
          · rw [he2]
          · exact h1 _ (listLookup_mem _ _ _ hl) x hx2
        · exact h1 p hp
      · intro k hkk
        exact hasKey_update_preserve _ _ _ _ (h2 k hkk)

theorem strongInv_delete_diary (s : Sys) (i : String) (h : StrongInv s.mgr) :
    StrongInv (delete_diary s i).1.mgr := by
  obtain ⟨h1, h2, h3, h4⟩ := h
  cases hd : deleteDiaryIn i s.mgr.diaries with
  | none =>
    rw [delete_diary_none s i hd]
    exact ⟨h1, h2, h3, h4⟩
  | some dis =>
    rw [delete_diary_found s i dis hd]
    have hkeys := deleteDiaryIn_keys i s.mgr.diaries dis hd
    refine ⟨?_, ?_, h3, by rw [hkeys]; exact h4⟩
    · intro p hp
      rcases deleteDiaryIn_entries i s.mgr.diaries dis hd p hp with hp2 | ⟨l, hl, hrem⟩
      · exact h1 p hp2
      · intro x hx
        exact h1 (p.1, l) hl x (mem_removeById i x l p.2 hrem hx)
    · intro k hkk
      rw [hasKey_iff_mem_keys, hkeys, ← hasKey_iff_mem_keys]
      exact h2 k hkk

theorem strongInv_delete_book (s : Sys) (i : String) (h : StrongInv s.mgr) :
    StrongInv (delete_book s i).1.mgr := by
  obtain ⟨h1, h2, h3, h4⟩ := h
  unfold delete_book
  cases hb : hasKey i s.mgr.books
  · simp only [hb, Bool.false_eq_true, if_false]
    exact ⟨h1, h2, h3, h4⟩
  · simp only [hb, if_true]
    cases hk : hasKey i s.mgr.diaries
    · simp only [hk, Bool.false_eq_true, if_false]
      refine ⟨h1, ?_, keys_erase_nodup _ _ h3, h4⟩
      intro k hkk
      exact h2 k (hasKey_of_hasKey_erase _ _ _ hkk)
    · simp only [hk, if_true]
      refine ⟨?_, ?_, keys_erase_nodup _ _ h3, keys_erase_nodup _ _ h4⟩
      · intro p hp
        exact h1 p (mem_listErase _ _ _ hp)
      · intro k hkk
        have hne : k ≠ i := by
          intro he
          subst he
          rw [hasKey, listLookup_erase_self _ _ h3] at hkk
          cases hkk
        rw [hasKey, listLookup_erase_ne _ _ _ hne] at hkk ⊢
        exact h2 k hkk

/-- States reachable from a fresh empty manager through the five mutating
operations named by the invariant claim. -/
inductive Reachable : Sys → Prop where
  | init : Reachable ⟨⟨[], []⟩, none⟩
  | addBook (s : Sys) (b : Book) : Reachable s → Reachable (add_book s b).1
  | addDiary (s : Sys) (d : Diary) : Reachable s → Reachable (add_diary s d).1
  | updateDiary (s : Sys) (d : Diary) : Reachable s → Reachable (update_diary s d).1
  | deleteDiary (s : Sys) (i : String) : Reachable s → Reachable (delete_diary s i).1
  | deleteBook (s : Sys) (i : String) : Reachable s → Reachable (delete_book s i).1

theorem reachable_strongInv (s : Sys) (h : Reachable s) : StrongInv s.mgr := by
  induction h with
  | init =>
    refine ⟨?_, ?_, by simp, by simp⟩
    · intro p hp
      cases hp
    · intro k hk
      cases hk
  | addBook s b _ ih => exact strongInv_add_book s b ih
  | addDiary s d _ ih => exact strongInv_add_diary s d ih
  | updateDiary s d _ ih => exact strongInv_update_diary s d ih
  | deleteDiary s i _ ih => exact strongInv_delete_diary s i ih
  | deleteBook s i _ ih => exact strongInv_delete_book s i ih

/-! ### Sample data used by the concrete witnesses -/

def bookA : Book := ⟨"b1", "Dune", "Herbert", 1965, "SF", ""⟩

def bookB : Book := ⟨"b2", "1984", "Orwell", 1949, "", ""⟩

def diaryJan : Diary := ⟨"d1", "b1", ⟨2024, 1, 1, 0, 0, 0⟩, "jan"⟩

def diaryMar : Diary := ⟨"d2", "b1", ⟨2024, 3, 1, 0, 0, 0⟩, "mar"⟩

def diaryFeb : Diary := ⟨"d3", "b1", ⟨2024, 2, 1, 0, 0, 0⟩, "feb"⟩

def diaryNew : Diary := ⟨"d9", "b1", ⟨2024, 5, 1, 0, 0, 0⟩, "new"⟩

def diaryOrphan : Diary := ⟨"d8", "zz", ⟨2024, 5, 1, 0, 0, 0⟩, "orphan"⟩

def mgrSample : BookManager :=
  ⟨[("b1", bookA)], [("b1", [diaryJan, diaryMar, diaryFeb])]⟩

def sysSample : Sys := ⟨mgrSample, none⟩

/-! ### Helpers for the empty-query search -/

theorem substrAux_nil (l : List Char) : substrAux l [] = true := by
  cases l <;> rfl

theorem lowerStr_empty : lowerStr "" = "" := by decide

theorem containsSub_empty (s : String) : containsSub s "" = true := by
  have hd : ("" : String).data = [] := by decide
  rw [containsSub, hd]
  exact substrAux_nil s.data

/-! ## The claims -/

/-- C7: for every valid Book record `b`, `from_dict (to_dict b)` equals `b`
field-wise, including the `id` field. -/
theorem book_roundtrip_spec (b : Book) : Book.from_dict (Book.to_dict b) = b := rfl

/-- C3: for every valid Diary record `d` (a real calendar date within the
`datetime` range, with no time component, as the spec's day-granularity data
model prescribes), `from_dict (to_dict d)` equals `d` field-wise, and the
date round-trips through the fixed `YYYY-MM-DD` format. -/
theorem diary_roundtrip_spec (d : Diary) (hv : d.date.ValidDate)
    (hm : d.date.Midnight) :
    Diary.from_dict (Diary.to_dict d) = some d ∧
    strptimeDate (strftimeDate d.date) = some d.date :=
  ⟨diary_from_to d hv hm, strptime_strftime d.date hv hm⟩

theorem diary_roundtrip_witness :
    diaryJan.date.ValidDate ∧ diaryJan.date.Midnight ∧
    Diary.from_dict (Diary.to_dict diaryJan) = some diaryJan :=
  ⟨by decide, by decide, (diary_roundtrip_spec diaryJan (by decide) (by decide)).1⟩

/-- C10: searching with the empty query returns every book, in the same
order as the full listing, because the empty string is a substring of every
field. -/
theorem search_books_empty_query (m : BookManager) :
    search_books m "" = get_all_books m := by
  show (m.books.map Prod.snd).filter (fun b =>
      containsSub (lowerStr b.title) (lowerStr "") ||
        containsSub (lowerStr b.author) (lowerStr "") ||
        containsSub (lowerStr b.genre) (lowerStr "") ||
        containsSub (lowerStr b.memo) (lowerStr "")) = m.books.map Prod.snd
  rw [lowerStr_empty]
  apply List.filter_eq_self.mpr
  intro b _
  simp [containsSub_empty]

/-- C2: `get_diaries_for_book` returns `[]` when the book id is not a key of
the diaries dict; otherwise it returns exactly the stored diaries (a
permutation), sorted by date descending, and diaries with equal dates keep
their relative stored order (the per-date filtrations coincide). -/
theorem getDiariesForBook_spec (m : BookManager) (bid : String) :
    (listLookup bid m.diaries = none → get_diaries_for_book m bid = []) ∧
    (∀ l, listLookup bid m.diaries = some l →
      (get_diaries_for_book m bid).Perm l ∧
      (get_diaries_for_book m bid).Pairwise dateDesc ∧
      (∀ dt, (get_diaries_for_book m bid).filter (fun x => decide (x.date = dt)) =
        l.filter (fun x => decide (x.date = dt)))) := by
  constructor
  · intro h
    exact get_diaries_for_book_none m bid h
  · intro l h
    rw [get_diaries_for_book_some m bid l h]
    exact ⟨sortByDateDesc_perm l, sortByDateDesc_pairwise l,
      fun dt => sortByDateDesc_filter l dt⟩

theorem getDiariesForBook_witness :
    (get_diaries_for_book mgrSample "zz" = []) ∧
    (get_diaries_for_book mgrSample "b1").Perm [diaryJan, diaryMar, diaryFeb] ∧
    get_diaries_for_book mgrSample "b1" = [diaryMar, diaryFeb, diaryJan] :=
  ⟨(getDiariesForBook_spec mgrSample "zz").1 (by decide),
    ((getDiariesForBook_spec mgrSample "b1").2 [diaryJan, diaryMar, diaryFeb]
      (by decide)).1,
    by decide⟩

theorem lookup_none_of_hasKey_false (k : String) (l : List (String × α))
    (h : hasKey k l = false) : listLookup k l = none := by
  rw [hasKey] at h
  cases hc : listLookup k l with
  | none => rfl
  | some v =>
    rw [hc] at h
    cases h

/-- C1: `add_diary` with an unknown book id raises a referential-integrity
error (an exception, not a boolean), leaving books, diaries and the
persisted file exactly as they were; with a known book id it appends the
diary at the end of that book's list, leaves every other list untouched,
persists the new state and returns the diary's id. -/
theorem addDiary_spec (s : Sys) (d : Diary) :
    (hasKey d.book_id s.mgr.books = false →
      add_diary s d =
        (s, Except.error ("Book with ID " ++ d.book_id ++ " does not exist"))) ∧
    (hasKey d.book_id s.mgr.books = true →
      (add_diary s d).2 = Except.ok d.id ∧
      (add_diary s d).1.mgr.books = s.mgr.books ∧
      listLookup d.book_id (add_diary s d).1.mgr.diaries =
        some ((listLookup d.book_id s.mgr.diaries).getD [] ++ [d]) ∧
      (∀ k, k ≠ d.book_id →
        listLookup k (add_diary s d).1.mgr.diaries = listLookup k s.mgr.diaries) ∧
      (add_diary s d).1.file = some (save_data (add_diary s d).1.mgr)) := by
  constructor
  · intro h
    exact add_diary_eq_error s d h
  · intro h
    cases hk : hasKey d.book_id s.mgr.diaries
    · rw [add_diary_eq_absent s d h hk]
      refine ⟨rfl, rfl, ?_, ?_, rfl⟩
      · rw [listLookup_update_self, listLookup_update_self,
          lookup_none_of_hasKey_false _ _ hk]
        rfl
      · intro k hkne
        rw [listLookup_update_ne _ _ _ _ hkne, listLookup_update_ne _ _ _ _ hkne]
    · rw [add_diary_eq_present s d h hk]
      exact ⟨rfl, rfl, listLookup_update_self _ _ _,
        fun k hkne => listLookup_update_ne _ _ _ _ hkne, rfl⟩

theorem addDiary_witness :
    (hasKey "zz" sysSample.mgr.books = false ∧
      add_diary sysSample diaryOrphan =
        (sysSample, Except.error ("Book with ID " ++ "zz" ++ " does not exist"))) ∧
    (hasKey "b1" sysSample.mgr.books = true ∧
      (add_diary sysSample diaryNew).2 = Except.ok "d9") :=
  ⟨⟨by decide, (addDiary_spec sysSample diaryOrphan).1 (by decide)⟩,
    ⟨by decide, ((addDiary_spec sysSample diaryNew).2 (by decide)).1⟩⟩

/-- C8: `add_book` inserts unconditionally (overwriting in place on an id
collision), guarantees a diary list exists for the id — creating an empty
one exactly when none existed, keeping the existing lists untouched —
persists the new state and returns the book's id. -/
theorem addBook_spec (s : Sys) (b : Book) :
    (add_book s b).2 = b.id ∧
    (add_book s b).1.mgr.books = listUpdate b.id b s.mgr.books ∧
    get_book (add_book s b).1.mgr b.id = some b ∧
    hasKey b.id (add_book s b).1.mgr.diaries = true ∧
    (hasKey b.id s.mgr.diaries = false →
      listLookup b.id (add_book s b).1.mgr.diaries = some []) ∧
    (hasKey b.id s.mgr.diaries = true →
      (add_book s b).1.mgr.diaries = s.mgr.diaries) ∧
    (add_book s b).1.file = some (save_data (add_book s b).1.mgr) := by
  cases hk : hasKey b.id s.mgr.diaries
  · rw [add_book_eq_absent s b hk]
    refine ⟨rfl, rfl, listLookup_update_self _ _ _, hasKey_update_self _ _ _,
      ?_, ?_, rfl⟩
    · intro
      exact listLookup_update_self _ _ _
    · intro hc
      cases hc
  · rw [add_book_eq_present s b hk]
    refine ⟨rfl, rfl, listLookup_update_self _ _ _, hk, ?_, ?_, rfl⟩
    · intro hc
      cases hc
    · intro
      rfl

theorem addBook_witness :
    hasKey "b2" sysSample.mgr.diaries = false ∧
    (add_book sysSample bookB).2 = "b2" ∧
    listLookup "b2" (add_book sysSample bookB).1.mgr.diaries = some [] :=
  ⟨by decide, (addBook_spec sysSample bookB).1,
    (addBook_spec sysSample bookB).2.2.2.2.1 (by decide)⟩

/-- C8 counterexample: on an id collision where the existing book already
has diaries, `add_book` keeps the nonempty diary list, so no empty diary
list exists for the id after the call. -/
theorem addBook_keeps_existing_diaries_cex :
    (add_book sysSample bookA).2 = "b1" ∧
    listLookup "b1" (add_book sysSample bookA).1.mgr.diaries =
      some [diaryJan, diaryMar, diaryFeb] ∧
    listLookup "b1" (add_book sysSample bookA).1.mgr.diaries ≠ some [] := by
  decide

/-- C6: `delete_book` on an absent id returns `false` and changes nothing;
on a present id it removes the book (all other books unchanged), removes
the book's entire diary list so that `get_diaries_for_book` afterwards
returns `[]` (other books' diaries unchanged), persists and returns
`true`.  The key-uniqueness hypotheses are Python dict invariants. -/
theorem deleteBook_spec (s : Sys) (bid : String)
    (hB : (s.mgr.books.map Prod.fst).Nodup)
    (hD : (s.mgr.diaries.map Prod.fst).Nodup) :
    (hasKey bid s.mgr.books = false → delete_book s bid = (s, false)) ∧
    (hasKey bid s.mgr.books = true →
      (delete_book s bid).2 = true ∧
      (delete_book s bid).1.mgr.books = listErase bid s.mgr.books ∧
      get_book (delete_book s bid).1.mgr bid = none ∧
      (∀ k, k ≠ bid → get_book (delete_book s bid).1.mgr k = get_book s.mgr k) ∧
      hasKey bid (delete_book s bid).1.mgr.diaries = false ∧
      get_diaries_for_book (delete_book s bid).1.mgr bid = [] ∧
      (∀ k, k ≠ bid →
        get_diaries_for_book (delete_book s bid).1.mgr k =
          get_diaries_for_book s.mgr k) ∧
      (delete_book s bid).1.file = some (save_data (delete_book s bid).1.mgr)) := by
  constructor
  · intro h
    exact delete_book_eq_absent s bid h
  · intro h
    cases hk : hasKey bid s.mgr.diaries
    · rw [delete_book_eq_keep s bid h hk]
      refine ⟨rfl, rfl, listLookup_erase_self _ _ hB, ?_, hk, ?_, ?_, rfl⟩
      · intro k hkne
        exact listLookup_erase_ne _ _ _ hkne
      · exact get_diaries_for_book_none _ _ (lookup_none_of_hasKey_false _ _ hk)
      · intro k _
        rfl
    · rw [delete_book_eq_erase s bid h hk]
      refine ⟨rfl, rfl, listLookup_erase_self _ _ hB, ?_, ?_, ?_, ?_, rfl⟩
      · intro k hkne
        exact listLookup_erase_ne _ _ _ hkne
      · rw [hasKey, listLookup_erase_self _ _ hD]
        rfl
      · exact get_diaries_for_book_none _ _ (listLookup_erase_self _ _ hD)
      · intro k hkne
        unfold get_diaries_for_book
        rw [listLookup_erase_ne _ _ _ hkne]

theorem deleteBook_witness :
    (mgrSample.books.map Prod.fst).Nodup ∧
    (mgrSample.diaries.map Prod.fst).Nodup ∧
    hasKey "b1" sysSample.mgr.books = true ∧
    (delete_book sysSample "b1").2 = true ∧
    get_diaries_for_book (delete_book sysSample "b1").1.mgr "b1" = [] :=
  ⟨by decide, by decide, by decide,
    ((deleteBook_spec sysSample "b1" (by decide) (by decide)).2 (by decide)).1,
    ((deleteBook_spec sysSample "b1" (by decide) (by decide)).2
      (by decide)).2.2.2.2.2.1⟩

/-! ### Loading: branch equations -/

theorem load_data_no_file (s : Sys) (hf : s.file = none) :
    load_data s = (s, false) := by
  unfold load_data
  rw [hf]

theorem load_data_malformed (s : Sys) (hf : s.file = some .malformed) :
    load_data s = (s, false) := by
  unfold load_data
  rw [hf]

theorem load_data_parsed_ok (s : Sys) (bks : List (String × BookRecord))
    (dis : List (String × List DiaryRecord)) (ds : List (String × List Diary))
    (hf : s.file = some (.parsed bks dis)) (hd : decodeDiaries dis = some ds) :
    load_data s = (⟨⟨decodeBooks bks, ds⟩, some (.parsed bks dis)⟩, true) := by
  unfold load_data
  rw [hf]
  show (match decodeDiaries dis with
    | some newDiaries =>
      ((⟨⟨decodeBooks bks, newDiaries⟩, some (.parsed bks dis)⟩ : Sys), true)
    | none =>
      ((⟨⟨decodeBooks bks, s.mgr.diaries⟩, some (.parsed bks dis)⟩ : Sys), false)) = _
  rw [hd]

theorem load_data_parsed_fail (s : Sys) (bks : List (String × BookRecord))
    (dis : List (String × List DiaryRecord))
    (hf : s.file = some (.parsed bks dis)) (hd : decodeDiaries dis = none) :
    load_data s =
      (⟨⟨decodeBooks bks, s.mgr.diaries⟩, some (.parsed bks dis)⟩, false) := by
  unfold load_data
  rw [hf]
  show (match decodeDiaries dis with
    | some newDiaries =>
      ((⟨⟨decodeBooks bks, newDiaries⟩, some (.parsed bks dis)⟩ : Sys), true)
    | none =>
      ((⟨⟨decodeBooks bks, s.mgr.diaries⟩, some (.parsed bks dis)⟩ : Sys), false)) = _
  rw [hd]

/-- C4 (amended): when `load_data` reports failure, the in-memory diaries
mapping is always exactly as before the call (and nothing is raised — the
function totally returns `false`); the books mapping is also as before,
except in the one case where the file's books section decoded successfully
and the failure arose while decoding the diaries section — then the books
mapping holds the file's decoded books (the source assigns `self.books`
before decoding diaries). -/
theorem loadData_failure_spec (s : Sys) (h : (load_data s).2 = false) :
    (load_data s).1.mgr.diaries = s.mgr.diaries ∧
    (load_data s).1.file = s.file ∧
    ((load_data s).1.mgr.books = s.mgr.books ∨
      ∃ bks dis, s.file = some (.parsed bks dis) ∧ decodeDiaries dis = none ∧
        (load_data s).1.mgr.books = decodeBooks bks) := by
  cases hf : s.file with
  | none =>
    rw [load_data_no_file s hf]
    exact ⟨rfl, hf, Or.inl rfl⟩
  | some fc =>
    cases fc with
    | malformed =>
      rw [load_data_malformed s hf]
      exact ⟨rfl, hf, Or.inl rfl⟩
    | parsed bks dis =>
      cases hd : decodeDiaries dis with
      | some ds =>
        rw [load_data_parsed_ok s bks dis ds hf hd] at h
        cases h
      | none =>
        rw [load_data_parsed_fail s bks dis hf hd]
        exact ⟨rfl, rfl, Or.inr ⟨bks, dis, rfl, hd, rfl⟩⟩

/-- Prior state: empty books, empty diaries; the file holds one decodable
book and one diary whose date string does not parse. -/
def cexLoadSys : Sys :=
  ⟨⟨[], []⟩, some (.parsed [("b1", ⟨"b1", "T", "A", 2000, "", ""⟩)]
    [("b1", [⟨"d1", "b1", "not-a-date", "x"⟩])])⟩

/-- C4 counterexample: `load_data` reports failure, yet the in-memory books
mapping is not what it was before the call. -/
theorem loadData_books_mutated_cex :
    (load_data cexLoadSys).2 = false ∧
    (load_data cexLoadSys).1.mgr.books ≠ cexLoadSys.mgr.books := by decide

theorem loadData_failure_witness :
    (load_data cexLoadSys).2 = false ∧
    (load_data cexLoadSys).1.mgr.diaries = cexLoadSys.mgr.diaries :=
  ⟨by decide, (loadData_failure_spec cexLoadSys (by decide)).1⟩

/-- C5 (amended): for every state whose stored diary dates are valid
day-granularity dates (the data model's notion of a date; Python `datetime`
values with a time-of-day component lose it in the round trip), saving and
then constructing a fresh manager that loads the file reproduces both the
book listing and every per-book diary listing exactly. -/
theorem saveLoad_roundtrip (m : BookManager)
    (h : ∀ p ∈ m.diaries, ∀ d ∈ p.2, d.date.ValidDate ∧ d.date.Midnight) :
    get_all_books (freshLoad (some (save_data m))).mgr = get_all_books m ∧
    ∀ bid, get_diaries_for_book (freshLoad (some (save_data m))).mgr bid =
      get_diaries_for_book m bid := by
  rw [freshLoad_save m h]
  exact ⟨rfl, fun _ => rfl⟩

theorem saveLoad_witness :
    (∀ p ∈ mgrSample.diaries, ∀ d ∈ p.2, d.date.ValidDate ∧ d.date.Midnight) ∧
    get_all_books (freshLoad (some (save_data mgrSample))).mgr =
      get_all_books mgrSample :=
  ⟨by decide, (saveLoad_roundtrip mgrSample (by decide)).1⟩

/-- A state whose single diary has a time-of-day component (12:00),
as produced by the `datetime.now()` default. -/
def cexNoonMgr : BookManager :=
  ⟨[("b1", bookA)], [("b1", [⟨"d1", "b1", ⟨2024, 5, 1, 12, 0, 0⟩, "x"⟩])]⟩

/-- C5 counterexample: with a time-of-day component in a stored diary date,
the reloaded diary listing differs field-wise from the pre-save one (the
time component is dropped by the fixed date format). -/
theorem saveLoad_not_identical_cex :
    get_diaries_for_book (freshLoad (some (save_data cexNoonMgr))).mgr "b1" ≠
      get_diaries_for_book cexNoonMgr "b1" := by decide

/-- C9: in every state reachable from the empty manager via the five
mutating operations, every diary stored under key `k` has `book_id = k`,
and every key of the books mapping is a key of the diaries mapping. -/
theorem reachable_refIntegrity (s : Sys) (h : Reachable s) :
    (∀ k l, listLookup k s.mgr.diaries = some l → ∀ d ∈ l, d.book_id = k) ∧
    (∀ k, hasKey k s.mgr.books = true → hasKey k s.mgr.diaries = true) := by
  obtain ⟨h1, h2, _, _⟩ := reachable_strongInv s h
  exact ⟨fun k l hl d hd => h1 (k, l) (listLookup_mem _ _ _ hl) d hd, h2⟩

theorem refIntegrity_witness :
    (∀ k l, listLookup k (add_book ⟨⟨[], []⟩, none⟩ bookA).1.mgr.diaries = some l →
      ∀ d ∈ l, d.book_id = k) ∧
    (∀ k, hasKey k (add_book ⟨⟨[], []⟩, none⟩ bookA).1.mgr.books = true →
      hasKey k (add_book ⟨⟨[], []⟩, none⟩ bookA).1.mgr.diaries = true) :=
  reachable_refIntegrity _ (Reachable.addBook _ bookA Reachable.init)

end BookApp
